import Mathlib

/-!
Shallow embedding of the PhyloShape ancestral-shape-inference core
(`src/phyloshape/phylo/src/phylo.py` and `src/phyloshape/shape/src/vertex.py`).

Machine floats are modelled by `Rat`; numpy arrays by flattened `List`s
(only flattened lengths of the vector arrays are ever observed by the code
under study).  External collaborators that are not part of the repository
(symengine expressions, scipy's `basinhopping`, numpy's RNG, the toytree
tree object, the `VertexVectorMapper` translator and the `MotionModel`
classes from the absent `models.py`) are modelled as opaque parameters or
small symbolic datatypes, exactly at the granularity the embedded code
consumes them.
-/

/-- A 3-D coordinate row of a numpy coords array (dtype COORD_TYPE). -/
def Coord3 : Type := Rat × Rat × Rat

instance : DecidableEq Coord3 := by unfold Coord3; infer_instance

instance : Inhabited Coord3 := ⟨(0, 0, 0)⟩

/-- An RGB color row of a numpy colors array (dtype RGB_TYPE). -/
def Rgb3 : Type := Nat × Nat × Nat

instance : DecidableEq Rgb3 := by unfold Rgb3; infer_instance

/-- Symbolic scalar expressions (symengine values): numeric literals,
named symbols (`Symbol("...")`), sums and negation.  The motion model's
per-branch log-likelihood term is produced by an opaque function into
this type. -/
inductive Expr where
  | num (q : Rat)
  | sym (name : String)
  | add (a b : Expr)
  | neg (a : Expr)
deriving DecidableEq, Repr

/-- Errors surfaced by the embedded code: the three `assert` statements of
`phylo.py` / `vertex.py` and the explicit `raise Exception("optimization
failed!")`. -/
inductive PsError where
  /-- `assert leaf_node.name in self.shapes` (phylo.py line 84). -/
  | missingData
  /-- `assert (vect_transform is None) == (vect_inverse_transform is None)`
  (phylo.py lines 67-68). -/
  | configPairing
  /-- `assert len(self.coords) == len(self.colors)` (vertex.py line 21). -/
  | verticesLenMismatch
  /-- `raise Exception("optimization failed!")` (phylo.py line 255). -/
  | optimizationFailed
deriving DecidableEq, Repr

/-- `Vertices` from `src/phyloshape/shape/src/vertex.py`: a coords array
and a colors array. -/
structure Vertices where
  coords : List Coord3
  colors : List Rgb3
deriving DecidableEq

instance : Inhabited Vertices := ⟨⟨[], []⟩⟩

/-- `Vertices.__init__` (vertex.py lines 15-21): `None` becomes the empty
array, any other argument is converted with `np.array`, and then
`assert len(self.coords) == len(self.colors)` runs. -/
def Vertices.init (coords : Option (List Coord3)) (colors : Option (List Rgb3)) :
    Except PsError Vertices :=
  let cs : List Coord3 := match coords with | none => [] | some c => c
  let cls : List Rgb3 := match colors with | none => [] | some c => c
  if cs.length = cls.length then .ok ⟨cs, cls⟩ else .error .verticesLenMismatch

/-- The fitted `VertexVectorMapper` (external module
`phyloshape/shape/src/vectors.py`, not part of the embedded core):
opaque encode/decode functions plus the length of its `vh_list()`. -/
structure VVTranslator where
  to_vectors : Vertices → List Expr
  to_vertices : List Expr → List Coord3
  vh_len : Nat

instance : Inhabited VVTranslator := ⟨⟨fun _ => [], fun _ => [], 0⟩⟩

/-- The `MotionModel` contract (external module
`phyloshape/phylo/src/models.py`, not part of the embedded core):
`get_parameters()` is the ordered list of the model's own parameter
symbols, and `form_log_like(time, from_states, to_states, log_f)` is an
opaque symbolic per-branch term.  The `log_f` argument (a logarithm
back-end such as `symengine.log`) is modelled as an opaque tag. -/
structure MotionModel where
  parameters : List Expr
  form_log_like : Rat → List Expr → List Expr → Nat → Expr

/-- The tag standing for the `symengine.log` back-end passed as `log_func`
by `reconstruct_ancestral_shapes_using_ml`. -/
def s_log : Nat := 0

/-- A toytree node as consumed by `phylo.py`: name, branch length to the
parent (`node._dist`), parent index (`node.up`, `none` iff `node.is_root()`),
and the mutable per-node features the pipeline assigns
(`vertices`, `vectors`, `vectors_symbols`). -/
structure TreeNode where
  name : String
  dist : Rat
  up : Option Nat
  vertices : Option Vertices := none
  vectors : List Expr := []
  vectors_symbols : List Expr := []

instance : Inhabited TreeNode := ⟨⟨"", 0, none, none, [], []⟩⟩

/-- A scipy optimization result: `result.success`, `result.fun`,
`result.x` (flattened). -/
structure OptResult where
  success : Bool
  objective : Rat
  x : List Rat
deriving DecidableEq, Repr

/-- The mutable state of a `PhyloShape` instance (phylo.py lines 60-78):
the bound tree (node list indexed by the stable toytree index, tips at
`[0, ntips)`), its traversal order, the shape alignment, the motion
model, the optional transform pair, and the fields written by the
pipeline stages (`__variables`, `vv_translator`, `loglike_form`,
`negloglike_func`, `__result`). -/
structure PhyloState where
  ntips : Nat
  nodes : List TreeNode
  traverse : List Nat
  shapes : List (String × Vertices)
  model : MotionModel
  vect_transform : Option (List (List Expr) → List (List Expr))
  vect_inverse_transform : Option (List Expr → List Expr)
  free_variables : List Expr
  vv_translator : Option VVTranslator
  loglike_form : Expr
  negloglike_func : Option (List Expr × Expr)
  result : Option OptResult

/-- `self.tree[node_id]` (indexing the toytree by stable node index). -/
def getNode (s : PhyloState) (i : Nat) : TreeNode :=
  s.nodes.getD i default

/-- `ShapeAlignment.__getitem__` by label: returns the vertices stored
under a label, `none` when the label is absent (`name in self.shapes`
is the `isSome` of this lookup). -/
def lookupShape (shapes : List (String × Vertices)) (name : String) : Option Vertices :=
  (shapes.find? (fun p => p.1 = name)).map (fun p => p.2)

/-- Assign `tree[i].vertices = v` (all other node features kept). -/
def setVertAt (nodes : List TreeNode) (i : Nat) (v : Vertices) : List TreeNode :=
  nodes.set i { nodes.getD i default with vertices := some v }

/-- Assign `tree[i].vectors = v` (all other node features kept). -/
def setVecAt (nodes : List TreeNode) (i : Nat) (v : List Expr) : List TreeNode :=
  nodes.set i { nodes.getD i default with vectors := v }

/-- Assign `tree[i].vectors = tree[i].vectors_symbols = v`
(phylo.py lines 140-142). -/
def setSymAt (nodes : List TreeNode) (i : Nat) (v : List Expr) : List TreeNode :=
  nodes.set i { nodes.getD i default with vectors := v, vectors_symbols := v }

/-- The loop body of `PhyloShape.__map_shape_to_tip` (phylo.py lines
80-85): for each tip index, assert its name is in the shape alignment and
assign the matching vertices to the node. -/
def mapShapeLoop (shapes : List (String × Vertices)) :
    List Nat → List TreeNode → Except PsError (List TreeNode)
  | [], nodes => .ok nodes
  | i :: rest, nodes =>
    match lookupShape shapes (nodes.getD i default).name with
    | none => .error .missingData
    | some v => mapShapeLoop shapes rest (setVertAt nodes i v)

/-- `PhyloShape.__map_shape_to_tip` (phylo.py lines 80-85). -/
def map_shape_to_tip (shapes : List (String × Vertices)) (ntips : Nat)
    (nodes : List TreeNode) : Except PsError (List TreeNode) :=
  mapShapeLoop shapes (List.range ntips) nodes

/-- `PhyloShape.__init__` (phylo.py lines 43-78): bind the tree and the
shape alignment, run `__map_shape_to_tip`, default the model to
`Brownian()` (the default instance is an opaque parameter here since
`models.py` is external), check the transform/inverse pairing assertion,
and initialize the mutable fields (`__variables = []`,
`vv_translator = None`, `loglike_form = 0`, `negloglike_func = None`,
`__result = None`). -/
def phyloShapeInit (ntips : Nat) (nodes : List TreeNode) (traver : List Nat)
    (shapes : List (String × Vertices)) (model : Option MotionModel)
    (brownianDefault : MotionModel)
    (vt : Option (List (List Expr) → List (List Expr)))
    (vit : Option (List Expr → List Expr)) : Except PsError PhyloState := do
  let nodes2 ← map_shape_to_tip shapes ntips nodes
  let mdl := match model with | some m => m | none => brownianDefault
  if vt.isNone = vit.isNone then
    .ok { ntips := ntips, nodes := nodes2, traverse := traver, shapes := shapes,
          model := mdl, vect_transform := vt, vect_inverse_transform := vit,
          free_variables := [], vv_translator := none, loglike_form := Expr.num 0,
          negloglike_func := none, result := none }
  else
    .error .configPairing

/-- `PhyloShape.build_vv_translator` (phylo.py lines 88-112): fit the
translator, either from the first sample alone (`mode == "old"`, legacy
`VertexVectorMapperOld`) or from all samples' coords
(`VertexVectorMapper`).  The external constructors are opaque
parameters. -/
def build_vv_translator (mkOld : Vertices → VVTranslator)
    (mkNew : String → Nat → Nat → List (List Coord3) → VVTranslator)
    (mode : String) (num_vs num_vt_iter : Nat) (s : PhyloState) : PhyloState :=
  if mode = "old" then
    { s with vv_translator := some (mkOld (s.shapes.getD 0 ("", default)).2) }
  else
    let t := mkNew mode num_vs num_vt_iter (s.shapes.map (fun p => p.2.coords))
    { s with vv_translator := some t }

/-- `PhyloShape.build_tip_vectors` (phylo.py lines 114-132): without a
transform, each tip's vectors are `to_vectors` of its vertices; with a
transform, the per-tip vector list is transformed as a whole and assigned
back by enumeration index. -/
def build_tip_vectors (s : PhyloState) : PhyloState :=
  let tr := s.vv_translator.getD default
  match s.vect_transform with
  | none =>
      let nds2 := (List.range s.ntips).foldl
        (fun nds i =>
          setVecAt nds i (tr.to_vectors ((nds.getD i default).vertices.getD default)))
        s.nodes
      { s with nodes := nds2 }
  | some f =>
      let vectors_list :=
        (List.range s.ntips).map (fun i => tr.to_vectors ((getNode s i).vertices.getD default))
      let transformed := f vectors_list
      let nds2 := (List.range transformed.length).foldl
        (fun nds i => setVecAt nds i (transformed.getD i [])) s.nodes
      { s with nodes := nds2 }

/-- `PhyloShape.sym_ancestral_vectors` (phylo.py lines 134-146): for each
internal node id in `[ntips, nnodes)`, assign
`vectors = vectors_symbols = [Symbol("{id}_{component}") ...]`, with the
shared flattened length `n_vals = prod(tree[0].vectors.shape)`. -/
def sym_ancestral_vectors (s : PhyloState) : PhyloState :=
  let n_vals := (getNode s 0).vectors.length
  let nds2 := (List.range' s.ntips (s.nodes.length - s.ntips)).foldl
    (fun nds node_id =>
      setSymAt nds node_id
        ((List.range n_vals).map
          (fun go_v => Expr.sym (toString node_id ++ "_" ++ toString go_v))))
    s.nodes
  { s with nodes := nds2 }

/-- `PhyloShape.__update_variables` (phylo.py lines 173-177): rebuild
`__variables` as the model's parameters followed by every internal node's
flattened `vectors_symbols`, in increasing node-index order. -/
def update_variables (s : PhyloState) : List Expr :=
  (List.range' s.ntips (s.nodes.length - s.ntips)).foldl
    (fun acc i => acc ++ (getNode s i).vectors_symbols)
    s.model.parameters

/-- `PhyloShape.formularize_log_like` (phylo.py lines 148-165): reset the
formula to 0, then for every node in `self.tree.traverse()` that is not
the root add `model.form_log_like(node._dist, node.up.vectors,
node.vectors, log_func)` to the running sum; finally call
`__update_variables`. -/
def formularize_log_like (log_f : Nat) (s : PhyloState) : PhyloState :=
  let form := s.traverse.foldl
    (fun acc i =>
      match (getNode s i).up with
      | some p =>
          Expr.add acc
            (s.model.form_log_like (getNode s i).dist (getNode s p).vectors
              (getNode s i).vectors log_f)
      | none => acc)
    (Expr.num 0)
  let s1 := { s with loglike_form := form }
  { s1 with free_variables := update_variables s1 }

/-- `PhyloShape.functionalize_log_like` (phylo.py lines 167-171): compile
`lambdify(args=self.__variables, exprs=[-self.loglike_form])`.  The
compiled object is represented by its defining data (argument list,
negated expression).  The source performs no precondition check. -/
def functionalize_log_like (s : PhyloState) : PhyloState :=
  { s with negloglike_func := some (s.free_variables, Expr.neg s.loglike_form) }

/-- Python tail-slice start index: `a[-k:]` addresses the suffix starting
at `len(a) - k`, except that `k = 0` (and `k >= len(a)`) address the whole
array. -/
def pyTailStart (n k : Nat) : Nat :=
  if k = 0 then 0 else n - k

/-- The initial-guess construction of one optimization attempt
(phylo.py lines 212-216): `vector_mean` is the element-wise average of
the tip vector arrays (all sharing `tree[0].vectors`' shape, so its
flattened length is `len(tree[0].vectors)`); the guess starts as the
given uniform draws in `[0,1)` and the trailing `len_vt` entries are
replaced by `1 - (u - 0.5) * 0.01`. -/
def propose_initials (s : PhyloState) (randvals : List Rat) : List Rat :=
  let len_vt := (getNode s 0).vectors.length
  let start := pyTailStart randvals.length len_vt
  randvals.take start ++ (randvals.drop start).map (fun u => 1 - (u - 1/2) * (1/100))

/-- One basinhopping attempt of `minimize_negloglike` (phylo.py lines
212-233): draw `len(self.__variables)` uniform values from the RNG
stream for attempt `k`, build the initial guess, and run the external
solver (`basinhopping` with the fixed minimizer kwargs, `niter=10`,
`seed=12345678`, modelled as the opaque `bh` applied to the compiled
objective and the initial guess). -/
def attempt_result (rand : Nat → Nat → Rat)
    (bh : Option (List Expr × Expr) → List Rat → OptResult)
    (s : PhyloState) (k : Nat) : OptResult :=
  bh s.negloglike_func
    (propose_initials s ((List.range s.free_variables.length).map (rand k)))

/-- The retry loop of `minimize_negloglike` (phylo.py lines 211-246):
`while count_run < 200`, run one attempt; on success append it to
`success_runs` and break (without incrementing `count_run`), otherwise
increment `count_run` and continue.  Returns `(success_runs, count_run)`.
`fuel` bounds the recursion and is `200` at the call site, enough for the
whole loop. -/
def minimizeLoop (step : Nat → OptResult) :
    Nat → Nat → List OptResult → List OptResult × Nat
  | 0, count_run, success_runs => (success_runs, count_run)
  | fuel + 1, count_run, success_runs =>
    if count_run < 200 then
      let result := step count_run
      if result.success then (success_runs ++ [result], count_run)
      else minimizeLoop step fuel (count_run + 1) success_runs
    else (success_runs, count_run)

/-- The assignment loop of `PhyloShape.__summarize_ml_result` (phylo.py
lines 199-202): walk the internal node ids in increasing order, assigning
each node the next `n_vals`-sized slice `x[go_p:to_p]` of the optimized
vector as its numeric vectors, advancing `go_p` by `n_vals` each step. -/
def summarizeLoop (x : List Rat) (n_vals : Nat) :
    List Nat → List TreeNode × Nat → List TreeNode × Nat
  | [], acc => acc
  | anc_node_id :: rest, acc =>
    let go_p := acc.2
    let to_p := go_p + n_vals
    summarizeLoop x n_vals rest
      (setVecAt acc.1 anc_node_id (((x.drop go_p).take n_vals).map Expr.num), to_p)

/-- `PhyloShape.__summarize_ml_result` (phylo.py lines 189-202): slice
the first `len(model.get_parameters())` entries of `result.x` off as the
fitted model parameters (they are logged), then run `summarizeLoop` over
the internal nodes, with `n_vals = prod(tree[0].vectors.shape)`. -/
def summarize_ml_result (s : PhyloState) (x : List Rat) : PhyloState :=
  let go_p := s.model.parameters.length
  let n_vals := (getNode s 0).vectors.length
  let upd := summarizeLoop x n_vals
    (List.range' s.ntips (s.nodes.length - s.ntips)) (s.nodes, go_p)
  { s with nodes := upd.1 }

/-- `PhyloShape.minimize_negloglike` (phylo.py lines 204-255): run the
retry loop; if `success_runs` is non-empty take its first element, store
it in `self.__result` and run `__summarize_ml_result`, else raise the
optimization-failure exception (in which case the instance state is
untouched: every statement executed on that path writes only locals).
The `num_proc` parameter is accepted but never read. -/
def minimize_negloglike (rand : Nat → Nat → Rat)
    (bh : Option (List Expr × Expr) → List Rat → OptResult)
    (num_proc : Nat) (s : PhyloState) : PhyloState × Option PsError :=
  let loop_out := minimizeLoop (attempt_result rand bh s) 200 0 []
  match loop_out.1 with
  | result :: _ =>
      let s1 := { s with result := some result }
      (summarize_ml_result s1 result.x, none)
  | [] => (s, some .optimizationFailed)

/-- One of the assignment loops of `PhyloShape.build_ancestral_vertices`
(phylo.py lines 257-266): for each internal node id in order, construct
`Vertices(recon(node.vectors))` (colors defaulted to `None`) and assign
it to the node; a raised assertion stops the loop, leaving the state as
mutated so far. -/
def buildAncLoop (recon : List Expr → List Coord3) :
    List Nat → PhyloState → PhyloState × Option PsError
  | [], s => (s, none)
  | i :: rest, s =>
    match Vertices.init (some (recon (getNode s i).vectors)) none with
    | .ok v => buildAncLoop recon rest { s with nodes := setVertAt s.nodes i v }
    | .error e => (s, some e)

/-- `PhyloShape.build_ancestral_vertices` (phylo.py lines 257-266):
without an inverse transform, reconstruct each internal node's vertices
as `Vertices(vv_translator.to_vertices(node.vectors))`; with one, first
apply `vect_inverse_transform` to the node's vectors. -/
def build_ancestral_vertices (s : PhyloState) : PhyloState × Option PsError :=
  let tr := s.vv_translator.getD default
  let ids := List.range' s.ntips (s.nodes.length - s.ntips)
  match s.vect_inverse_transform with
  | none => buildAncLoop (fun vecs => tr.to_vertices vecs) ids s
  | some f => buildAncLoop (fun vecs => tr.to_vertices (f vecs)) ids s

/-- The coordinates `build_ancestral_vertices` would reconstruct for node
`i` (the argument of the `Vertices(...)` call for that node, before any
mutation). -/
def anc_recon (s : PhyloState) (i : Nat) : List Coord3 :=
  let tr := s.vv_translator.getD default
  match s.vect_inverse_transform with
  | none => tr.to_vertices (getNode s i).vectors
  | some f => tr.to_vertices (f (getNode s i).vectors)

/-- `PhyloShape.reconstruct_ancestral_shapes_using_ml` (phylo.py lines
268-284): the full pipeline.  `num_proc` is accepted, but the call to
`minimize_negloglike` passes the literal `1` ("multiprocessing not
working yet"). -/
def reconstruct_ancestral_shapes_using_ml (mkOld : Vertices → VVTranslator)
    (mkNew : String → Nat → Nat → List (List Coord3) → VVTranslator)
    (rand : Nat → Nat → Rat)
    (bh : Option (List Expr × Expr) → List Rat → OptResult)
    (mode : String) (num_vs num_vt_iter : Nat) (num_proc : Nat)
    (s : PhyloState) : PhyloState × Option PsError :=
  let s1 := build_vv_translator mkOld mkNew mode num_vs num_vt_iter s
  let s2 := build_tip_vectors s1
  let s3 := sym_ancestral_vectors s2
  let s4 := formularize_log_like s_log s3
  let s5 := functionalize_log_like s4
  match minimize_negloglike rand bh 1 s5 with
  | (s6, some e) => (s6, some e)
  | (s6, none) => build_ancestral_vertices s6

/-! ### Helper lemmas about indexed updates -/

theorem getD_set_ne {α : Type} [Inhabited α] (l : List α) (i j : Nat) (a : α)
    (h : i ≠ j) : (l.set i a).getD j default = l.getD j default := by
  simp [List.getD_eq_getElem?_getD, List.getElem?_set_ne h]

theorem getD_set_self {α : Type} [Inhabited α] (l : List α) (i : Nat) (a : α) :
    (l.set i a).getD i default = if i < l.length then a else default := by
  by_cases h : i < l.length
  · simp [List.getD_eq_getElem?_getD, List.getElem?_set_eq_of_lt a h, h]
  · have h1 : l.length ≤ i := Nat.le_of_not_lt h
    have h2 : (l.set i a).length ≤ i := by simpa using h1
    simp [List.getD_eq_getElem?_getD, List.getElem?_eq_none h2, h]

theorem setVertAt_name (nodes : List TreeNode) (i j : Nat) (v : Vertices) :
    ((setVertAt nodes i v).getD j default).name = (nodes.getD j default).name := by
  unfold setVertAt
  by_cases h : i = j
  · subst h
    rw [getD_set_self]
    split
    · rfl
    · rename_i hn
      rw [List.getD_eq_getElem?_getD, List.getElem?_eq_none (Nat.le_of_not_lt hn)]
      rfl
  · rw [getD_set_ne _ _ _ _ h]

theorem setVertAt_vectors (nodes : List TreeNode) (i j : Nat) (v : Vertices) :
    ((setVertAt nodes i v).getD j default).vectors = (nodes.getD j default).vectors := by
  unfold setVertAt
  by_cases h : i = j
  · subst h
    rw [getD_set_self]
    split
    · rfl
    · rename_i hn
      rw [List.getD_eq_getElem?_getD, List.getElem?_eq_none (Nat.le_of_not_lt hn)]
      rfl
  · rw [getD_set_ne _ _ _ _ h]

theorem setVertAt_vectors' (nodes : List TreeNode) (i j : Nat) (v : Vertices) :
    ((setVertAt nodes i v)[j]?.getD default).vectors = (nodes[j]?.getD default).vectors := by
  simpa [List.getD_eq_getElem?_getD] using setVertAt_vectors nodes i j v

theorem anc_recon_setVert (s : PhyloState) (j : Nat) (v : Vertices) (i : Nat) :
    anc_recon { s with nodes := setVertAt s.nodes j v } i = anc_recon s i := by
  unfold anc_recon getNode
  cases s.vect_inverse_transform <;> simp [setVertAt_vectors']

/-! ### Lemmas about the tip-binding loop -/

theorem mapShapeLoop_missing (shapes : List (String × Vertices)) :
    ∀ (ids : List Nat) (nodes : List TreeNode),
      (∃ i ∈ ids, lookupShape shapes (nodes.getD i default).name = none) →
      mapShapeLoop shapes ids nodes = .error .missingData := by
  intro ids
  induction ids with
  | nil =>
      rintro nodes ⟨i, hi, _⟩
      simp at hi
  | cons j rest ih =>
      rintro nodes ⟨i, hi, hnone⟩
      by_cases hj : lookupShape shapes (nodes.getD j default).name = none
      · simp only [mapShapeLoop, hj]
      · obtain ⟨v, hv⟩ := Option.ne_none_iff_exists'.mp hj
        simp only [mapShapeLoop, hv]
        apply ih
        have hir : i ∈ rest := by
          rcases List.mem_cons.mp hi with h | h
          · subst h
            rw [hnone] at hv
            cases hv
          · exact h
        exact ⟨i, hir, by rw [setVertAt_name]; exact hnone⟩

theorem mapShapeLoop_ok (shapes : List (String × Vertices)) :
    ∀ (ids : List Nat) (nodes : List TreeNode),
      (∀ i ∈ ids, (lookupShape shapes (nodes.getD i default).name).isSome) →
      ∃ nodes2, mapShapeLoop shapes ids nodes = .ok nodes2 := by
  intro ids
  induction ids with
  | nil => intro nodes _; exact ⟨nodes, rfl⟩
  | cons j rest ih =>
      intro nodes hall
      obtain ⟨v, hv⟩ := Option.isSome_iff_exists.mp (hall j (List.mem_cons_self j rest))
      have step : mapShapeLoop shapes (j :: rest) nodes =
          mapShapeLoop shapes rest (setVertAt nodes j v) := by
        simp only [mapShapeLoop, hv]
      rw [step]
      exact ih (setVertAt nodes j v)
        (fun i hi => by rw [setVertAt_name]; exact hall i (List.mem_cons_of_mem j hi))

/-! ### Lemmas about the ancestral-vertex reconstruction loop -/

theorem buildAncLoop_err (recon : List Expr → List Coord3) :
    ∀ (ids : List Nat) (s : PhyloState),
      (∃ i ∈ ids, recon (getNode s i).vectors ≠ []) →
      (buildAncLoop recon ids s).2 = some PsError.verticesLenMismatch := by
  intro ids
  induction ids with
  | nil =>
      rintro s ⟨i, hi, _⟩
      simp at hi
  | cons j rest ih =>
      rintro s ⟨i, hi, hne⟩
      by_cases hj : recon (getNode s j).vectors = []
      · have hok : Vertices.init (some (recon (getNode s j).vectors)) none =
            .ok ⟨[], []⟩ := by rw [hj]; rfl
        simp only [buildAncLoop, hok]
        apply ih
        have hir : i ∈ rest := by
          rcases List.mem_cons.mp hi with h | h
          · subst h; exact absurd hj hne
          · exact h
        refine ⟨i, hir, ?_⟩
        have hv : (getNode { s with nodes := setVertAt s.nodes j ⟨[], []⟩ } i).vectors =
            (getNode s i).vectors := by
          unfold getNode
          exact setVertAt_vectors s.nodes j i ⟨[], []⟩
        rw [hv]
        exact hne
      · have hlen : (recon (getNode s j).vectors).length ≠ 0 := by
          simpa [List.length_eq_zero] using hj
        have herr : Vertices.init (some (recon (getNode s j).vectors)) none =
            .error .verticesLenMismatch := by
          unfold Vertices.init
          simp [hlen]
        simp only [buildAncLoop, herr]

/-! ### Concrete fixtures used by witnesses and counterexamples -/

/-- A concrete motion-model instance (one parameter symbol, opaque zero
branch term) for concrete evaluations. -/
def cxModel : MotionModel := ⟨[Expr.sym "s"], fun _ _ _ _ => Expr.num 0⟩

/-- A concrete post-optimization state: one tip (node 0) with a
1-component numeric vector, two internal nodes (1 is the root, 2 its
child) with 1-component symbolic vectors, and a translator whose decoder
returns one vertex row. -/
def cx3State : PhyloState :=
  { ntips := 1,
    nodes := [⟨"A", 1, some 1, none, [Expr.num 2], []⟩,
              ⟨"", 0, none, none, [Expr.sym "1_0"], [Expr.sym "1_0"]⟩,
              ⟨"", 0, some 1, none, [Expr.sym "2_0"], [Expr.sym "2_0"]⟩],
    traverse := [1, 0, 2],
    shapes := [("A", ⟨[(0, 0, 0)], [(0, 0, 0)]⟩)],
    model := cxModel,
    vect_transform := none,
    vect_inverse_transform := none,
    free_variables := [Expr.sym "s", Expr.sym "1_0", Expr.sym "2_0"],
    vv_translator := some ⟨fun _ => [], fun _ => [(1, 2, 3)], 3⟩,
    loglike_form := Expr.num 0,
    negloglike_func := none,
    result := none }

/-- C3: the `Vertices` constructor, given any non-empty coords and
`colors=None`, fails its length assertion; consequently
`build_ancestral_vertices`, which calls `Vertices(...)` on reconstructed
coordinates alone, raises that assertion whenever some internal node's
reconstructed coordinate set is non-empty. -/
theorem c3_vertices_assert :
    (∀ coords : List Coord3, coords ≠ [] →
      Vertices.init (some coords) none = .error PsError.verticesLenMismatch) ∧
    (∀ s : PhyloState,
      (∃ i, s.ntips ≤ i ∧ i < s.nodes.length ∧ anc_recon s i ≠ []) →
      (build_ancestral_vertices s).2 = some PsError.verticesLenMismatch) := by
  constructor
  · intro coords hne
    have hlen : coords.length ≠ 0 := by simpa [List.length_eq_zero] using hne
    unfold Vertices.init
    simp [hlen]
  · rintro s ⟨i, h1, h2, h3⟩
    have hmem : i ∈ List.range' s.ntips (s.nodes.length - s.ntips) := by
      rw [List.mem_range'_1]
      omega
    unfold build_ancestral_vertices
    rcases hv : s.vect_inverse_transform with _ | f
    · simp only [hv]
      apply buildAncLoop_err
      refine ⟨i, hmem, ?_⟩
      unfold anc_recon at h3
      rw [hv] at h3
      exact h3
    · simp only [hv]
      apply buildAncLoop_err
      refine ⟨i, hmem, ?_⟩
      unfold anc_recon at h3
      rw [hv] at h3
      exact h3

theorem c3_vertices_assert_witness :
    (([((1 : Rat), 2, 3)] : List Coord3) ≠ []) ∧
    Vertices.init (some [((1 : Rat), 2, 3)]) none = .error PsError.verticesLenMismatch ∧
    (1 ≤ cx3State.nodes.length - 1 + 1 ∧ 1 < cx3State.nodes.length ∧ anc_recon cx3State 1 ≠ []) ∧
    (build_ancestral_vertices cx3State).2 = some PsError.verticesLenMismatch :=
  ⟨by decide,
   c3_vertices_assert.1 [((1 : Rat), 2, 3)] (by decide),
   ⟨by decide, by decide, by decide⟩,
   c3_vertices_assert.2 cx3State ⟨1, by decide, by decide, by decide⟩⟩

/-- C7: if some tree leaf name has no matching shape sample, constructing
the `PhyloShape` raises the missing-data assertion at the tree/shape
binding step (`__map_shape_to_tip`, the first action of `__init__`), for
every choice of model and transform arguments — in particular before the
transform-pairing check and before any translator building, formula
construction or optimization could be reached (those require a
successfully constructed instance). -/
theorem c7_missing_data_error
    (ntips : Nat) (nodes : List TreeNode) (traver : List Nat)
    (shapes : List (String × Vertices)) (model : Option MotionModel)
    (brownianDefault : MotionModel)
    (vt : Option (List (List Expr) → List (List Expr)))
    (vit : Option (List Expr → List Expr))
    (hmiss : ∃ i, i < ntips ∧ lookupShape shapes (nodes.getD i default).name = none) :
    phyloShapeInit ntips nodes traver shapes model brownianDefault vt vit =
      .error PsError.missingData := by
  obtain ⟨i, hlt, hnone⟩ := hmiss
  have h := mapShapeLoop_missing shapes (List.range ntips) nodes
    ⟨i, List.mem_range.mpr hlt, hnone⟩
  unfold phyloShapeInit map_shape_to_tip
  rw [h]
  rfl

theorem c7_missing_data_error_witness :
    (∃ i, i < 1 ∧
      lookupShape [] (([⟨"A", 1, some 1, none, [], []⟩,
        ⟨"", 0, none, none, [], []⟩] : List TreeNode).getD i default).name = none) ∧
    phyloShapeInit 1 [⟨"A", 1, some 1, none, [], []⟩, ⟨"", 0, none, none, [], []⟩]
        [1, 0] [] (some cxModel) cxModel (some (fun l => l)) none =
      .error PsError.missingData :=
  ⟨⟨0, Nat.one_pos, rfl⟩,
   c7_missing_data_error 1 _ [1, 0] [] (some cxModel) cxModel (some (fun l => l)) none
     ⟨0, Nat.one_pos, rfl⟩⟩

/-- C8: with complete tip data, supplying exactly one of the forward
vector transform and its inverse makes `PhyloShape.__init__` fail with
the configuration-pairing assertion (before any state is constructed, so
before any tree traversal), while supplying both or neither constructs
successfully. -/
theorem c8_transform_pairing
    (ntips : Nat) (nodes : List TreeNode) (traver : List Nat)
    (shapes : List (String × Vertices)) (model : Option MotionModel)
    (brownianDefault : MotionModel)
    (vt : Option (List (List Expr) → List (List Expr)))
    (vit : Option (List Expr → List Expr))
    (hfull : ∀ i, i < ntips → (lookupShape shapes (nodes.getD i default).name).isSome) :
    (vt.isNone = vit.isNone →
      (phyloShapeInit ntips nodes traver shapes model brownianDefault vt vit).isOk = true) ∧
    (vt.isNone ≠ vit.isNone →
      phyloShapeInit ntips nodes traver shapes model brownianDefault vt vit =
        .error PsError.configPairing) := by
  obtain ⟨nodes2, hok⟩ := mapShapeLoop_ok shapes (List.range ntips) nodes
    (fun i hi => hfull i (List.mem_range.mp hi))
  constructor
  · intro hp
    unfold phyloShapeInit map_shape_to_tip
    rw [hok]
    show (if vt.isNone = vit.isNone then (Except.ok _ : Except PsError PhyloState)
      else Except.error PsError.configPairing).isOk = true
    rw [if_pos hp]
    rfl
  · intro hp
    unfold phyloShapeInit map_shape_to_tip
    rw [hok]
    show (if vt.isNone = vit.isNone then (Except.ok _ : Except PsError PhyloState)
      else Except.error PsError.configPairing) = _
    rw [if_neg hp]

theorem c8_transform_pairing_witness :
    (∀ i, i < 1 →
      (lookupShape [("A", ⟨[(0, 0, 0)], [(0, 0, 0)]⟩)]
        (([⟨"A", 1, some 1, none, [], []⟩, ⟨"", 0, none, none, [], []⟩] :
          List TreeNode).getD i default).name).isSome) ∧
    phyloShapeInit 1 [⟨"A", 1, some 1, none, [], []⟩, ⟨"", 0, none, none, [], []⟩]
        [1, 0] [("A", ⟨[(0, 0, 0)], [(0, 0, 0)]⟩)] (some cxModel) cxModel
        (some (fun l => l)) none =
      .error PsError.configPairing ∧
    (phyloShapeInit 1 [⟨"A", 1, some 1, none, [], []⟩, ⟨"", 0, none, none, [], []⟩]
        [1, 0] [("A", ⟨[(0, 0, 0)], [(0, 0, 0)]⟩)] (some cxModel) cxModel
        none none).isOk = true :=
  ⟨by decide,
   (c8_transform_pairing 1 _ [1, 0] _ (some cxModel) cxModel (some (fun l => l)) none
     (by decide)).2 (by decide),
   (c8_transform_pairing 1 _ [1, 0] _ (some cxModel) cxModel none none
     (by decide)).1 rfl⟩

/-- C9: the concurrency hint `num_proc` is accepted but ignored — for
every pair of hint values the reconstruction driver (and the optimization
stage itself, whose call site hard-codes `num_proc=1`) performs the exact
same computation and produces identical observable results. -/
theorem c9_num_proc_ignored
    (mkOld : Vertices → VVTranslator)
    (mkNew : String → Nat → Nat → List (List Coord3) → VVTranslator)
    (rand : Nat → Nat → Rat)
    (bh : Option (List Expr × Expr) → List Rat → OptResult)
    (mode : String) (num_vs num_vt_iter : Nat) (p1 p2 : Nat) (s : PhyloState) :
    reconstruct_ancestral_shapes_using_ml mkOld mkNew rand bh mode num_vs num_vt_iter p1 s =
      reconstruct_ancestral_shapes_using_ml mkOld mkNew rand bh mode num_vs num_vt_iter p2 s ∧
    minimize_negloglike rand bh p1 s = minimize_negloglike rand bh p2 s :=
  ⟨rfl, rfl⟩

/-- The tree binding used for the C2 evaluations: one tip "A" under a
root. -/
def cx2Nodes : List TreeNode :=
  [⟨"A", 1, some 1, none, [], []⟩, ⟨"", 0, none, none, [], []⟩]

/-- A complete shape alignment for `cx2Nodes`. -/
def cx2Shapes : List (String × Vertices) :=
  [("A", ⟨[(0, 0, 0)], [(0, 0, 0)]⟩)]

/-- The state `PhyloShape.__init__` produces on `cx2Nodes`/`cx2Shapes`
(fresh instance: empty variable list, zero formula, no compiled
function). -/
def cx2InitState : PhyloState :=
  { ntips := 1,
    nodes := [⟨"A", 1, some 1, some ⟨[(0, 0, 0)], [(0, 0, 0)]⟩, [], []⟩,
              ⟨"", 0, none, none, [], []⟩],
    traverse := [1, 0],
    shapes := cx2Shapes,
    model := cxModel,
    vect_transform := none,
    vect_inverse_transform := none,
    free_variables := [],
    vv_translator := none,
    loglike_form := Expr.num 0,
    negloglike_func := none,
    result := none }

/-- C2 counterexample: on a freshly constructed instance — before
`formularize_log_like` has ever run — `functionalize_log_like` does not
fail with any precondition error; it silently compiles a function from
the empty/initial state (argument list `[]`, expression `-0`), refuting
the claim that the call fails loudly. -/
theorem c2_counterexample :
    phyloShapeInit 1 cx2Nodes [1, 0] cx2Shapes (some cxModel) cxModel none none =
      .ok cx2InitState ∧
    functionalize_log_like cx2InitState =
      { cx2InitState with negloglike_func := some ([], Expr.neg (Expr.num 0)) } :=
  ⟨rfl, rfl⟩

theorem exceptBind_ok {e a b : Type} (x : a) (f : a → Except e b) :
    (Except.ok x >>= f) = f x := rfl

/-- C2 amended: `functionalize_log_like` performs no precondition check
at all.  Invoked on any freshly constructed instance, before
`formularize_log_like` has built a formula, it silently compiles
`lambdify(args=[], exprs=[-0])` — a constant function of zero variables
built from the initial empty state — rather than raising an error. -/
theorem c2_amended_no_precondition_check
    (ntips : Nat) (nodes : List TreeNode) (traver : List Nat)
    (shapes : List (String × Vertices)) (model : Option MotionModel)
    (brownianDefault : MotionModel)
    (vt : Option (List (List Expr) → List (List Expr)))
    (vit : Option (List Expr → List Expr)) (s0 : PhyloState)
    (hinit : phyloShapeInit ntips nodes traver shapes model brownianDefault vt vit =
      .ok s0) :
    functionalize_log_like s0 =
      { s0 with negloglike_func := some ([], Expr.neg (Expr.num 0)) } := by
  unfold phyloShapeInit at hinit
  cases hm : map_shape_to_tip shapes ntips nodes with
  | error e =>
      rw [hm] at hinit
      exact Except.noConfusion hinit
  | ok nodes2 =>
      rw [hm] at hinit
      simp only [exceptBind_ok] at hinit
      by_cases hp : vt.isNone = vit.isNone
      · rw [if_pos hp] at hinit
        have hs := Except.ok.inj hinit
        rw [← hs]
        rfl
      · rw [if_neg hp] at hinit
        exact Except.noConfusion hinit

theorem c2_amended_no_precondition_check_witness :
    phyloShapeInit 1 cx2Nodes [1, 0] cx2Shapes (some cxModel) cxModel none none =
      .ok cx2InitState ∧
    functionalize_log_like cx2InitState =
      { cx2InitState with negloglike_func := some ([], Expr.neg (Expr.num 0)) } :=
  ⟨rfl, c2_amended_no_precondition_check 1 cx2Nodes [1, 0] cx2Shapes (some cxModel)
    cxModel none none cx2InitState rfl⟩

/-- C1 counterexample: in `cx3State` there are two internal nodes (1 and
2), each with one vector component, plus one model parameter, so the
"ancestral block" of the free-variable vector in the claim's sense is its
last two positions (1 and 2).  Feeding the uniform draws `[0, 0, 0]`
(each in `[0,1)`) to the initial-guess construction yields
`[0, 0, 201/200]`: position 1 — an ancestral component, node 1's symbol —
keeps its raw uniform draw 0, which is not in `(0.995, 1.005]`.  Only the
final block of length `len(tree[0].vectors) = 1` is perturbed, refuting
the claim that the whole trailing ancestral block is. -/
theorem c1_counterexample :
    cx3State.free_variables = update_variables cx3State ∧
    cx3State.model.parameters.length = 1 ∧
    cx3State.free_variables.length = 3 ∧
    (getNode cx3State 1).vectors_symbols ++ (getNode cx3State 2).vectors_symbols =
      [Expr.sym "1_0", Expr.sym "2_0"] ∧
    propose_initials cx3State [0, 0, 0] = [0, 0, 201/200] ∧
    ¬(995/1000 < (0 : Rat) ∧ (0 : Rat) ≤ 1005/1000) := by
  refine ⟨rfl, rfl, rfl, rfl, ?_, by norm_num⟩
  show [(0 : Rat), 0] ++ [1 - ((0 : Rat) - 1/2) * (1/100)] = [0, 0, 201/200]
  norm_num

/-- C1 amended: per attempt the initial guess assigns the independent
uniform draws in `[0,1)` to every free variable, and then replaces only
the trailing block of length `len(tree[0].vectors)` — the flattened size
of a *single* node's vector array, i.e. the block of the last internal
node, not of all internal nodes — with `1 - (u - 0.5) * 0.01`, each value
landing in `(0.995, 1.005]`; every earlier entry (including the other
internal nodes' components) keeps its uniform draw. -/
theorem c1_amended_trailing_block (s : PhyloState) (randvals : List Rat)
    (hpos : 0 < (getNode s 0).vectors.length)
    (hrange : ∀ u ∈ randvals, 0 ≤ u ∧ u < 1) :
    (∀ i, i < randvals.length - (getNode s 0).vectors.length →
      (propose_initials s randvals)[i]? = randvals[i]?) ∧
    (∀ i v, randvals.length - (getNode s 0).vectors.length ≤ i →
      (propose_initials s randvals)[i]? = some v →
      995/1000 < v ∧ v ≤ 1005/1000) := by
  have hk : (getNode s 0).vectors.length ≠ 0 := Nat.pos_iff_ne_zero.mp hpos
  have hstart : pyTailStart randvals.length (getNode s 0).vectors.length =
      randvals.length - (getNode s 0).vectors.length := by
    unfold pyTailStart
    rw [if_neg hk]
  have heq : propose_initials s randvals =
      randvals.take (pyTailStart randvals.length (getNode s 0).vectors.length) ++
        (randvals.drop (pyTailStart randvals.length (getNode s 0).vectors.length)).map
          (fun u => 1 - (u - 1/2) * (1/100)) := rfl
  rw [heq, hstart]
  have htklen :
      (randvals.take (randvals.length - (getNode s 0).vectors.length)).length =
        randvals.length - (getNode s 0).vectors.length := by
    simp only [List.length_take]
    omega
  constructor
  · intro i hi
    rw [List.getElem?_append_left (by rw [htklen]; exact hi)]
    exact List.getElem?_take_of_lt hi
  · intro i v hge hsome
    rw [List.getElem?_append_right (by rw [htklen]; exact hge)] at hsome
    rw [htklen] at hsome
    rw [List.getElem?_map] at hsome
    rw [List.getElem?_drop] at hsome
    rcases hu : randvals[randvals.length - (getNode s 0).vectors.length +
        (i - (randvals.length - (getNode s 0).vectors.length))]? with _ | u
    · rw [hu] at hsome
      cases hsome
    · rw [hu, Option.map_some'] at hsome
      have hv := Option.some.inj hsome
      obtain ⟨h0, h1⟩ := hrange u (List.getElem?_mem hu)
      rw [← hv]
      constructor
      · linarith
      · linarith

theorem c1_amended_trailing_block_witness :
    (0 < (getNode cx3State 0).vectors.length ∧
      (∀ u ∈ ([0, 1/2, 1/2] : List Rat), 0 ≤ u ∧ u < 1)) ∧
    (propose_initials cx3State [0, 1/2, 1/2])[0]? = ([0, 1/2, 1/2] : List Rat)[0]? ∧
    (995/1000 < (1 : Rat) ∧ (1 : Rat) ≤ 1005/1000) :=
  ⟨⟨by decide, by intro u hu; fin_cases hu <;> norm_num⟩,
   (c1_amended_trailing_block cx3State [0, 1/2, 1/2] (by decide)
     (by intro u hu; fin_cases hu <;> norm_num)).1 0 (by decide),
   (c1_amended_trailing_block cx3State [0, 1/2, 1/2] (by decide)
     (by intro u hu; fin_cases hu <;> norm_num)).2 2 1 (by decide)
     (by show some (1 - ((1 : Rat)/2 - 1/2) * (1/100)) = some 1; norm_num)⟩

/-! ### Lemmas about the optimization retry loop -/

theorem minimizeLoop_all_fail (step : Nat → OptResult) :
    ∀ (fuel c : Nat) (runs : List OptResult), c + fuel = 200 →
      (∀ j, c ≤ j → j < 200 → (step j).success = false) →
      minimizeLoop step fuel c runs = (runs, 200) := by
  intro fuel
  induction fuel with
  | zero =>
      intro c runs hc _
      have hc2 : c = 200 := by omega
      subst hc2
      rfl
  | succ fuel ih =>
      intro c runs hc hall
      have hclt : c < 200 := by omega
      have hfail : (step c).success = false := hall c (Nat.le_refl c) hclt
      simp only [minimizeLoop]
      rw [if_pos hclt, hfail]
      simp only [Bool.false_eq_true, if_false]
      exact ih (c + 1) runs (by omega) (fun j hj hj2 => hall j (by omega) hj2)

theorem minimizeLoop_first_success (step step' : Nat → OptResult) (k : Nat) :
    ∀ (fuel c : Nat) (runs : List OptResult), c ≤ k → k < 200 → k < c + fuel →
      (∀ j, c ≤ j → j < k → (step j).success = false) →
      (step k).success = true →
      (∀ j, c ≤ j → j ≤ k → step' j = step j) →
      minimizeLoop step' fuel c runs = (runs ++ [step k], k) := by
  intro fuel
  induction fuel with
  | zero =>
      intro c runs h1 _ h3 _ _ _
      omega
  | succ fuel ih =>
      intro c runs hck hk200 hfuel hfail hsucc hagree
      have hclt : c < 200 := by omega
      simp only [minimizeLoop]
      rw [if_pos hclt, hagree c (Nat.le_refl c) hck]
      by_cases hck2 : c = k
      · subst hck2
        rw [hsucc]
        simp only [if_true]
      · have hcklt : c < k := Nat.lt_of_le_of_ne hck hck2
        rw [hfail c (Nat.le_refl c) hcklt]
        simp only [Bool.false_eq_true, if_false]
        exact ih (c + 1) runs (by omega) hk200 (by omega)
          (fun j hj hj2 => hfail j (by omega) hj2) hsucc
          (fun j hj hj2 => hagree j (by omega) hj2)

/-- C5: if all 200 attempts report non-success, `minimize_negloglike`
raises the optimization-exhaustion exception (`success_runs` stays empty,
so the loop terminates at the 200-attempt cap and the `raise` path runs),
and the instance state is returned untouched: every node — in particular
every ancestral node — keeps exactly the vectors and vertices it had, so
no internal node receives numeric vectors or reconstructed vertices. -/
theorem c5_exhaustion_error (rand : Nat → Nat → Rat)
    (bh : Option (List Expr × Expr) → List Rat → OptResult) (num_proc : Nat)
    (s : PhyloState)
    (hfail : ∀ k, k < 200 → (attempt_result rand bh s k).success = false) :
    minimize_negloglike rand bh num_proc s = (s, some PsError.optimizationFailed) ∧
    (∀ i, getNode (minimize_negloglike rand bh num_proc s).1 i = getNode s i) := by
  have hloop := minimizeLoop_all_fail (attempt_result rand bh s) 200 0 [] rfl
    (fun j _ hj => hfail j hj)
  have hmain : minimize_negloglike rand bh num_proc s =
      (s, some PsError.optimizationFailed) := by
    simp only [minimize_negloglike]
    rw [hloop]
  exact ⟨hmain, fun i => by rw [hmain]⟩

theorem c5_exhaustion_error_witness :
    (∀ k, k < 200 →
      (attempt_result (fun _ _ => 0) (fun _ _ => ⟨false, 0, []⟩) cx3State k).success =
        false) ∧
    minimize_negloglike (fun _ _ => 0) (fun _ _ => ⟨false, 0, []⟩) 1 cx3State =
      (cx3State, some PsError.optimizationFailed) :=
  ⟨fun _ _ => rfl,
   (c5_exhaustion_error (fun _ _ => 0) (fun _ _ => ⟨false, 0, []⟩) 1 cx3State
     (fun _ _ => rfl)).1⟩

/-- C6: the first attempt whose result reports success terminates the
retry loop immediately: `success_runs` is exactly that one result and
`count_run` stops at the index of the successful attempt, the returned
state summarizes that first success (no comparison across multiple
successes can occur since the loop breaks at the first one), and no later
attempt is ever started — the outcome is unchanged under any modification
of the attempt oracle beyond index `k`. -/
theorem c6_first_success_wins (rand : Nat → Nat → Rat)
    (bh : Option (List Expr × Expr) → List Rat → OptResult) (num_proc : Nat)
    (s : PhyloState) (k : Nat) (hk : k < 200)
    (hsucc : (attempt_result rand bh s k).success = true)
    (hfail : ∀ j, j < k → (attempt_result rand bh s j).success = false) :
    minimizeLoop (attempt_result rand bh s) 200 0 [] =
      ([attempt_result rand bh s k], k) ∧
    minimize_negloglike rand bh num_proc s =
      (summarize_ml_result { s with result := some (attempt_result rand bh s k) }
        (attempt_result rand bh s k).x, none) ∧
    (∀ (rand' : Nat → Nat → Rat)
      (bh' : Option (List Expr × Expr) → List Rat → OptResult),
      (∀ j, j ≤ k → attempt_result rand' bh' s j = attempt_result rand bh s j) →
      minimize_negloglike rand' bh' num_proc s =
        minimize_negloglike rand bh num_proc s) := by
  have hl := minimizeLoop_first_success (attempt_result rand bh s)
    (attempt_result rand bh s) k 200 0 [] (Nat.zero_le k) hk (by omega)
    (fun j _ hj => hfail j hj) hsucc (fun j _ _ => rfl)
  refine ⟨hl, ?_, ?_⟩
  · simp only [minimize_negloglike]
    rw [hl]
    rfl
  · intro rand2 bh2 hagree
    have hl2 := minimizeLoop_first_success (attempt_result rand bh s)
      (attempt_result rand2 bh2 s) k 200 0 [] (Nat.zero_le k) hk (by omega)
      (fun j _ hj => hfail j hj) hsucc (fun j _ hj => hagree j hj)
    simp only [minimize_negloglike]
    rw [hl, hl2]

theorem c6_first_success_wins_witness :
    ((attempt_result (fun _ _ => 0) (fun _ _ => ⟨true, 5, [7, 8, 9]⟩) cx3State 0).success =
      true) ∧
    minimizeLoop (attempt_result (fun _ _ => 0) (fun _ _ => ⟨true, 5, [7, 8, 9]⟩) cx3State)
      200 0 [] = ([⟨true, 5, [7, 8, 9]⟩], 0) :=
  ⟨rfl,
   (c6_first_success_wins (fun _ _ => 0) (fun _ _ => ⟨true, 5, [7, 8, 9]⟩) 1 cx3State 0
     (by omega) rfl (fun j hj => absurd hj (Nat.not_lt_zero j))).1⟩

/-! ### The formula builder as a sum over non-root branches -/

/-- The per-branch log-likelihood term the formula builder adds for a
non-root node `i` with parent `p` (phylo.py lines 158-159):
`model.form_log_like(node._dist, node.up.vectors, node.vectors,
log_func)`. -/
def branch_term (s : PhyloState) (log_f : Nat) (p i : Nat) : Expr :=
  s.model.form_log_like (getNode s i).dist (getNode s p).vectors (getNode s i).vectors log_f

/-- The running sum `0 + t₁ + t₂ + ⋯` of a list of symbolic terms,
accumulated left to right exactly as `self.loglike_form += new_term`
does starting from `self.loglike_form = 0`. -/
def sumExpr (l : List Expr) : Expr :=
  l.foldl Expr.add (Expr.num 0)

theorem foldl_add_up (f : Nat → Nat → Expr) (up : Nat → Option Nat) :
    ∀ (l : List Nat) (z : Expr),
      l.foldl (fun acc i =>
        match up i with
        | some p => Expr.add acc (f p i)
        | none => acc) z =
      (l.filterMap (fun i => (up i).map (fun p => f p i))).foldl Expr.add z := by
  intro l
  induction l with
  | nil => intro z; rfl
  | cons a rest ih =>
      intro z
      cases hup : up a with
      | none =>
          simp only [List.foldl_cons, List.filterMap_cons, hup, Option.map_none']
          exact ih z
      | some p =>
          simp only [List.foldl_cons, List.filterMap_cons, hup, Option.map_some']
          exact ih (Expr.add z (f p a))

/-- C10: `formularize_log_like` builds the log-likelihood expression as
the running sum, over every node of the fixed traversal order that is not
the root (`node.up` is `none` exactly for the root, which therefore
contributes no term), of the motion model's per-branch term evaluated at
that node's branch length to its parent, the parent's vectors, and the
node's own vectors. -/
theorem c10_loglike_sum (log_f : Nat) (s : PhyloState) :
    (formularize_log_like log_f s).loglike_form =
      sumExpr (s.traverse.filterMap
        (fun i => ((getNode s i).up).map (fun p => branch_term s log_f p i))) :=
  foldl_add_up
    (fun p i => s.model.form_log_like (getNode s i).dist (getNode s p).vectors
      (getNode s i).vectors log_f)
    (fun i => (getNode s i).up) s.traverse (Expr.num 0)

/-! ### The free-variable packing and its inverse -/

theorem foldl_append_flatten (f : Nat → List Expr) :
    ∀ (l : List Nat) (init : List Expr),
      l.foldl (fun acc i => acc ++ f i) init = init ++ (l.map f).flatten := by
  intro l
  induction l with
  | nil => intro init; simp
  | cons a rest ih =>
      intro init
      simp only [List.foldl_cons, List.map_cons, List.flatten_cons]
      rw [ih (init ++ f a), List.append_assoc]

theorem flatten_uniform_getElem (f : Nat → List Expr) (nv : Nat) :
    ∀ (l : List Nat) (j c : Nat), (∀ i ∈ l, (f i).length = nv) → j < l.length → c < nv →
      ((l.map f).flatten)[j * nv + c]? = (f (l.getD j 0))[c]? := by
  intro l
  induction l with
  | nil =>
      intro j c _ hj _
      simp at hj
  | cons a rest ih =>
      intro j c hlen hj hc
      have hfa : (f a).length = nv := hlen a (List.mem_cons_self a rest)
      cases j with
      | zero =>
          simp only [List.map_cons, List.flatten_cons, Nat.zero_mul, Nat.zero_add,
            List.getD_cons_zero]
          rw [List.getElem?_append_left (by rw [hfa]; exact hc)]
      | succ j =>
          simp only [List.map_cons, List.flatten_cons, List.getD_cons_succ]
          have hge : (f a).length ≤ (j + 1) * nv + c := by
            rw [hfa]
            have : nv ≤ (j + 1) * nv := Nat.le_mul_of_pos_left nv (Nat.succ_pos j)
            omega
          rw [List.getElem?_append_right hge, hfa]
          have harith : (j + 1) * nv + c - nv = j * nv + c := by
            have : (j + 1) * nv = j * nv + nv := Nat.succ_mul j nv
            omega
          rw [harith]
          exact ih j c (fun i hi => hlen i (List.mem_cons_of_mem a hi))
            (by simpa using hj) hc

theorem summarizeLoop_spec (x : List Rat) (nv : Nat) :
    ∀ (k a gp : Nat) (nds : List TreeNode),
      (summarizeLoop x nv (List.range' a k) (nds, gp)).1.length = nds.length ∧
      (∀ i, i < a →
        (summarizeLoop x nv (List.range' a k) (nds, gp)).1.getD i default =
          nds.getD i default) ∧
      (∀ j, j < k → a + j < nds.length →
        (summarizeLoop x nv (List.range' a k) (nds, gp)).1.getD (a + j) default =
          { nds.getD (a + j) default with
            vectors := ((x.drop (gp + j * nv)).take nv).map Expr.num }) := by
  intro k
  induction k with
  | zero =>
      intro a gp nds
      exact ⟨rfl, fun _ _ => rfl, fun j hj _ => absurd hj (Nat.not_lt_zero j)⟩
  | succ k ih =>
      intro a gp nds
      rw [List.range'_succ a k 1]
      simp only [summarizeLoop]
      obtain ⟨ih1, ih2, ih3⟩ :=
        ih (a + 1) (gp + nv) (setVecAt nds a (((x.drop gp).take nv).map Expr.num))
      have hsetlen : (setVecAt nds a (((x.drop gp).take nv).map Expr.num)).length =
          nds.length := by
        unfold setVecAt
        exact List.length_set nds a _
      refine ⟨?_, ?_, ?_⟩
      · rw [ih1, hsetlen]
      · intro i hi
        rw [ih2 i (by omega)]
        unfold setVecAt
        exact getD_set_ne nds a i _ (by omega)
      · intro j hj hlt
        cases j with
        | zero =>
            simp only [Nat.add_zero, Nat.zero_mul] at hlt ⊢
            rw [ih2 a (Nat.lt_succ_self a)]
            unfold setVecAt
            rw [getD_set_self, if_pos hlt]
        | succ j =>
            have heq : a + (j + 1) = (a + 1) + j := by omega
            rw [heq]
            rw [ih3 j (by omega) (by rw [hsetlen]; omega)]
            unfold setVecAt
            rw [getD_set_ne nds a ((a + 1) + j) _ (by omega)]
            have harith : gp + nv + j * nv = gp + (j + 1) * nv := by
              have : (j + 1) * nv = j * nv + nv := Nat.succ_mul j nv
              omega
            rw [harith]

/-- C4: the free-variable ordering built by `__update_variables` is the
model's parameters (in model order) followed by every internal node's
flattened symbol array in increasing node-index order, and
`__summarize_ml_result` is the exact inverse of this packing: under the
shared-shape invariant, the leading `len(model.get_parameters())` slice
of the packed vector holds the parameters, position `np + j*nv + c` holds
internal node `ntips+j`'s symbol `c`, unpacking assigns node `ntips+j`
exactly the slice `x[np + j*nv : np + (j+1)*nv]` (the positions of its
own symbols), and tip nodes are untouched. -/
theorem c4_pack_unpack_inverse (s : PhyloState) (x : List Rat)
    (hsym : ∀ j, j < s.nodes.length - s.ntips →
      (getNode s (s.ntips + j)).vectors_symbols.length =
        (getNode s 0).vectors.length) :
    ((update_variables s).take s.model.parameters.length = s.model.parameters) ∧
    (∀ j c, j < s.nodes.length - s.ntips → c < (getNode s 0).vectors.length →
      (update_variables s)[s.model.parameters.length +
          j * (getNode s 0).vectors.length + c]? =
        (getNode s (s.ntips + j)).vectors_symbols[c]?) ∧
    (∀ i, i < s.ntips → getNode (summarize_ml_result s x) i = getNode s i) ∧
    (∀ j, j < s.nodes.length - s.ntips →
      (getNode (summarize_ml_result s x) (s.ntips + j)).vectors =
        ((x.drop (s.model.parameters.length +
          j * (getNode s 0).vectors.length)).take
          (getNode s 0).vectors.length).map Expr.num) := by
  have hupd : update_variables s =
      s.model.parameters ++
        ((List.range' s.ntips (s.nodes.length - s.ntips)).map
          (fun i => (getNode s i).vectors_symbols)).flatten :=
    foldl_append_flatten (fun i => (getNode s i).vectors_symbols)
      (List.range' s.ntips (s.nodes.length - s.ntips)) s.model.parameters
  refine ⟨?_, ?_, ?_, ?_⟩
  · rw [hupd]
    exact List.take_left _ _
  · intro j c hj hc
    rw [hupd]
    rw [List.getElem?_append_right (by omega)]
    have hidx : s.model.parameters.length + j * (getNode s 0).vectors.length + c -
        s.model.parameters.length = j * (getNode s 0).vectors.length + c := by omega
    rw [hidx]
    have hmemlen : ∀ i ∈ List.range' s.ntips (s.nodes.length - s.ntips),
        ((fun i => (getNode s i).vectors_symbols) i).length =
          (getNode s 0).vectors.length := by
      intro i hi
      rw [List.mem_range'_1] at hi
      have hsplit : s.ntips + (i - s.ntips) = i := by omega
      have := hsym (i - s.ntips) (by omega)
      rw [hsplit] at this
      exact this
    have hflat := flatten_uniform_getElem (fun i => (getNode s i).vectors_symbols)
      (getNode s 0).vectors.length (List.range' s.ntips (s.nodes.length - s.ntips))
      j c hmemlen (by simpa using hj) hc
    rw [hflat]
    have hrg : (List.range' s.ntips (s.nodes.length - s.ntips)).getD j 0 =
        s.ntips + j := by
      rw [List.getD_eq_getElem?_getD,
        List.getElem?_eq_getElem (by simpa using hj)]
      simp [List.getElem_range']
    rw [hrg]
  · intro i hi
    obtain ⟨-, h2, -⟩ := summarizeLoop_spec x (getNode s 0).vectors.length
      (s.nodes.length - s.ntips) s.ntips s.model.parameters.length s.nodes
    exact h2 i hi
  · intro j hj
    obtain ⟨-, -, h3⟩ := summarizeLoop_spec x (getNode s 0).vectors.length
      (s.nodes.length - s.ntips) s.ntips s.model.parameters.length s.nodes
    have hlt : s.ntips + j < s.nodes.length := by omega
    exact congrArg TreeNode.vectors (h3 j hj hlt)

theorem c4_pack_unpack_inverse_witness :
    (∀ j, j < cx3State.nodes.length - cx3State.ntips →
      (getNode cx3State (cx3State.ntips + j)).vectors_symbols.length =
        (getNode cx3State 0).vectors.length) ∧
    (update_variables cx3State).take cx3State.model.parameters.length =
      cx3State.model.parameters ∧
    (update_variables cx3State)[cx3State.model.parameters.length +
        1 * (getNode cx3State 0).vectors.length + 0]? =
      (getNode cx3State (cx3State.ntips + 1)).vectors_symbols[0]? ∧
    (getNode (summarize_ml_result cx3State [5, 7, 9]) (cx3State.ntips + 1)).vectors =
      ((([5, 7, 9] : List Rat).drop (cx3State.model.parameters.length +
        1 * (getNode cx3State 0).vectors.length)).take
        (getNode cx3State 0).vectors.length).map Expr.num :=
  ⟨by decide,
   (c4_pack_unpack_inverse cx3State [5, 7, 9] (by decide)).1,
   (c4_pack_unpack_inverse cx3State [5, 7, 9] (by decide)).2.1 1 0 (by decide) (by decide),
   (c4_pack_unpack_inverse cx3State [5, 7, 9] (by decide)).2.2.2 1 (by decide)⟩
